import Mathlib

/-
Verification of the department storage library core against its specification.

The definitions below are shallow embeddings of the Rust source:
  - error.rs       : StorageError
  - heap.rs        : blocks, blocks_for, find_open, find_lock, lock_range,
                     unlock_range, grow_in_place, grow_move, and the
                     Storage and MultiItemStorage methods of VirtHeap
  - fallback.rs    : FallbackStorage::try_grow over two abstract backends
  - debug.rs       : Debug::validate_alloc, Debug::validate_dealloc and
                     Debug::allocate_single
  - handles.rs     : OffsetMetaHandle

Machine integers are modelled as Nat (sizes in the scenarios stay far below
2^64, and none of the modelled arithmetic overflows there); code paths that
can panic in Rust (slice indexing with an out-of-range or inverted range,
assertion failures) are modelled with Option or Except, where none / error
marks the panic.
-/

deriving instance DecidableEq for Except

namespace Department

/-- Error type of error.rs (StorageError). -/
inductive StorageError where
  | InsufficientSpace (expected : Nat) (available : Option Nat)
  | InvalidAlign (expected : Nat) (available : Nat)
  | NoSlots
  | Unimplemented
deriving DecidableEq

/-- heap.rs, fn blocks: given a byte size, how many storage units it maps to.
The source computes size / mem::size_of::<S>() (integer division). -/
def blocks (sizeS size : Nat) : Nat := size / sizeS

/-- heap.rs, fn blocks_for: units needed for a capacity of elements of size
sizeT; the source computes (size_of::<T>() * capacity) / size_of::<S>(). -/
def blocksFor (sizeS sizeT capacity : Nat) : Nat := (sizeT * capacity) / sizeS

/-- One step of the running count in VirtHeap::find_open: a used unit resets
the count of consecutive free units, a free unit extends it. -/
def scanStep (n : Nat) (v : Bool) : Nat := if v then 0 else n + 1

/-- The scan-then-position part of VirtHeap::find_open, fused: walk the bitmap
keeping the running count of consecutive free units (carried in n) and return
the first index whose running count reaches b. -/
def findEnd (b : Nat) : List Bool → Nat → Option Nat
  | [], _ => none
  | v :: rest, n =>
    let n2 := scanStep n v
    if b ≤ n2 then some 0 else (findEnd b rest n2).map (fun e => e + 1)

/-- heap.rs, VirtHeap::find_open: translate the byte size to a unit count and
search the bitmap for the first (leftmost) run of that many free units,
returned as a half-open range of unit indices. -/
def find_open (sizeS : Nat) (used : List Bool) (size : Nat) :
    Except StorageError (Nat × Nat) :=
  let b := blocks sizeS size
  if b = 0 then .ok (0, 0)
  else if b > used.length then
    .error (.InsufficientSpace size (some (sizeS * used.length)))
  else
    match findEnd b used 0 with
    | some e => .ok (e - (b - 1), e + 1)
    | none => .error .NoSlots

/-- Mark (v = true) or unmark (v = false) the units in the half-open range
a..b of the bitmap, as lock_range / unlock_range do. Indices outside the list
are ignored; the separate sliceOk check models the panic of slice indexing. -/
def setRange : List Bool → Nat → Nat → Bool → List Bool
  | [], _, _, _ => []
  | x :: xs, a, b, v =>
    (if a = 0 ∧ 0 < b then v else x) :: setRange xs (a - 1) (b - 1) v

/-- Rust slice indexing with a range panics unless start ≤ end ≤ length. -/
def sliceOk (len a b : Nat) : Bool := decide (a ≤ b) && decide (b ≤ len)

/-- Check that every unit of the half-open range a..b is free, as the
used[after_old].iter().all(|&i| !i) check of grow_in_place does. -/
def rangeAllFree (used : List Bool) (a b : Nat) : Bool :=
  ((used.drop a).take (b - a)).all (fun v => !v)

/-- heap.rs, VirtHeap::find_lock: find an open range and mark it used,
returning the start unit of the reserved range. -/
def find_lock (sizeS : Nat) (used : List Bool) (size : Nat) :
    Except StorageError (Nat × List Bool) :=
  match find_open sizeS used size with
  | .error e => .error e
  | .ok r => .ok (r.1, setRange used r.1 r.2 true)

/-- State of a VirtHeap: the used bitmap (length N) and the backing bytes
(length N * sizeS). -/
structure VHState where
  used : List Bool
  storage : List Nat
deriving DecidableEq

/-- memmove-style copy used by grow_move via slice copy_within: bytes
src..src+len are copied to dest..dest+len, reading the pre-copy contents. -/
def copyWithin (l : List Nat) (src len dest : Nat) : List Nat :=
  (List.range l.length).map
    (fun i => if dest ≤ i ∧ i < dest + len then l.getD (src + (i - dest)) 0 else l.getD i 0)

/-- heap.rs, MultiItemStorage::allocate for a slice type [T]: compute the
layout of meta elements, validate it against the backing [S; N] array
(validate_layout_for), then find_lock a free run and hand out an
OffsetMetaHandle (start, meta). -/
def vhAllocate (sizeS alignS sizeT alignT : Nat) (st : VHState) (meta : Nat) :
    Except StorageError ((Nat × Nat) × VHState) :=
  let lsize := sizeT * meta
  let total := sizeS * st.used.length
  if lsize ≤ total ∧ alignT ≤ alignS then
    match find_lock sizeS st.used lsize with
    | .error e => .error e
    | .ok r => .ok ((r.1, meta), { st with used := r.2 })
  else if ¬ (lsize ≤ total) then .error (.InsufficientSpace lsize (some total))
  else .error (.InvalidAlign alignT alignS)

/-- heap.rs, MultiItemStorage::deallocate: recompute the byte size from the
handle metadata and unmark offset..offset + blocks(size). none models the
panic of an out-of-range slice index. -/
def vhDeallocate (sizeS sizeT : Nat) (st : VHState) (h : Nat × Nat) :
    Option VHState :=
  let lsize := sizeT * h.2
  let a := h.1
  let b := h.1 + blocks sizeS lsize
  if sliceOk st.used.length a b then
    some { st with used := setRange st.used a b false }
  else none

/-- heap.rs, Storage::try_grow for VirtHeap: first grow_in_place (claim the
units right after the current run if they are all free), otherwise grow_move
(unmark the current run unless the metadata is zero, find_open a run for the
new size, mark it, copy_within the old units, or restore the old run and fail
with InsufficientSpace). none models the panics of the slice indexing done by
grow_in_place and unlock_range. -/
def vhTryGrow (sizeS sizeT : Nat) (st : VHState) (h : Nat × Nat) (capacity : Nat) :
    Option (Except StorageError (Nat × Nat) × VHState) :=
  let oldSize := sizeT * h.2
  let newSize := sizeT * capacity
  let oldBlocks := blocks sizeS oldSize
  let newBlocks := blocks sizeS newSize
  let a := h.1 + oldBlocks
  let b := h.1 + newBlocks
  if sliceOk st.used.length a b = false then none
  else if rangeAllFree st.used a b then
    some (.ok (h.1, capacity), { st with used := setRange st.used a b true })
  else
    let oldA := h.1
    let oldBnd := h.1 + blocksFor sizeS sizeT h.2
    if sliceOk st.used.length oldA oldBnd = false then none
    else
      let used1 := if h.2 ≠ 0 then setRange st.used oldA oldBnd false else st.used
      match find_open sizeS used1 newSize with
      | .error _ =>
          let usedRestored := if h.2 ≠ 0 then setRange used1 oldA oldBnd true else used1
          some (.error (.InsufficientSpace newSize none), { st with used := usedRestored })
      | .ok r =>
          let used2 := setRange used1 r.1 r.2 true
          let storage2 :=
            copyWithin st.storage (oldA * sizeS) ((oldBnd - oldA) * sizeS) (r.1 * sizeS)
          some (.ok (r.1, capacity), { used := used2, storage := storage2 })

/-- heap.rs, Storage::try_shrink for VirtHeap: unmark the range
(offset + capacity)..(offset + metadata) of the bitmap — note the source uses
the element counts directly as unit indices here — and return a handle with
the same offset and the new metadata. none models the slice indexing panic. -/
def vhTryShrink (st : VHState) (h : Nat × Nat) (capacity : Nat) :
    Option (Except StorageError (Nat × Nat) × VHState) :=
  let a := h.1 + capacity
  let b := h.1 + h.2
  if sliceOk st.used.length a b then
    some (.ok (h.1, capacity), { st with used := setRange st.used a b false })
  else none

/-- Number of units marked used in a bitmap. -/
def usedCount (used : List Bool) : Nat := (used.filter (fun v => v)).length

/-- The unit count the spec ascribes to an allocation of n bytes:
the ceiling of n / sizeS. -/
def ceilUnits (sizeS n : Nat) : Nat := (n + sizeS - 1) / sizeS

/-- Bytes resolved through a handle: len bytes starting at byte offset off. -/
def readBytes (st : VHState) (off len : Nat) : List Nat :=
  (st.storage.drop off).take len

/-- debug.rs, DebugHandle: a monotonically assigned id plus the wrapped inner
handle. Its PartialEq compares only the id. -/
structure DebugHandle (H : Type) where
  id : Nat
  handle : H
deriving DecidableEq

/-- Equality of debug handles as implemented by PartialEq for DebugHandle:
ids only, never the inner handles. -/
def dhEq {H : Type} (x y : DebugHandle H) : Bool := x.id == y.id

/-- Vec::contains on the debug ledger, using the id-only handle equality. -/
def dhContains {H : Type} (l : List (DebugHandle H)) (h : DebugHandle H) : Bool :=
  l.any (fun x => dhEq x h)

/-- iter().position + remove on the debug ledger: drop the first entry equal
(by id) to the given handle, keeping the list unchanged when none matches. -/
def removeFirst {H : Type} : List (DebugHandle H) → DebugHandle H → List (DebugHandle H)
  | [], _ => []
  | x :: xs, h => if dhEq x h then xs else x :: removeFirst xs h

/-- debug.rs, DebugState: the ledger behind the mutex. -/
structure DebugState (H : Type) where
  single_allocated : Option (DebugHandle H)
  id : Nat
  allocated_handles : List (DebugHandle H)
  deallocated_handles : List (DebugHandle H)
deriving DecidableEq

/-- debug.rs, Debug::validate_alloc: take the next id, and in single mode
assert that no single allocation is recorded before recording the new one;
the assertion failure is modelled as the error case. The new handle is pushed
onto the allocated ledger. -/
def validate_alloc {H : Type} (single : Bool) (st : DebugState H) (h : H) :
    Except String (Nat × DebugState H) :=
  let theId := st.id
  let st1 := { st with id := st.id + 1 }
  let dh : DebugHandle H := { id := theId, handle := h }
  if single then
    if st1.single_allocated.isSome then
      .error "Called allocate_single without calling deallocate_single - this may overwrite the old value"
    else
      .ok (theId, { st1 with
        single_allocated := some dh,
        allocated_handles := st1.allocated_handles ++ [dh] })
  else
    .ok (theId, { st1 with allocated_handles := st1.allocated_handles ++ [dh] })

/-- debug.rs, Debug::validate_dealloc: assert the handle is not in the
deallocated ledger; in single mode assert a single allocation is recorded and
clear it; then remove the handle from the allocated ledger, if present, and
push it onto the deallocated ledger. Assertion failures are the error case. -/
def validate_dealloc {H : Type} (single : Bool) (st : DebugState H) (dh : DebugHandle H) :
    Except String (DebugState H) :=
  if dhContains st.deallocated_handles dh then
    .error "Called deallocate_single on the same handle twice"
  else if single && st.single_allocated.isNone then
    .error "Called deallocate_single without first allocating"
  else
    let st1 := if single then { st with single_allocated := none } else st
    let st2 := { st1 with allocated_handles := removeFirst st1.allocated_handles dh }
    .ok { st2 with deallocated_handles := st2.deallocated_handles ++ [dh] }

/-- Observable events of Debug::allocate_single: the delegation to the inner
backend and the raising of a diagnostic. -/
inductive AllocEv where
  | innerAlloc
  | diag
deriving DecidableEq

/-- isError test for Except. -/
def isErr {ε α : Type} : Except ε α → Bool
  | .error _ => true
  | .ok _ => false

/-- debug.rs, Storage::allocate_single for Debug: first delegate to the inner
backend (whose outcome is the innerRes argument), propagating its error, and
only then run validate_alloc in single mode. The returned list records the
order of the observable events. -/
def debugAllocSingle {H : Type} (innerRes : Except StorageError H) (st : DebugState H) :
    List AllocEv × Except (StorageError ⊕ String) (DebugHandle H × DebugState H) :=
  match innerRes with
  | .error e => ([.innerAlloc], .error (.inl e))
  | .ok h =>
    match validate_alloc true st h with
    | .error msg => ([.innerAlloc, .diag], .error (.inr msg))
    | .ok r => ([.innerAlloc], .ok ({ id := r.1, handle := h }, r.2))

/-- Whether event x occurs strictly before event y in the trace l. -/
def beforeIn (l : List AllocEv) (x y : AllocEv) : Bool :=
  match l.findIdx? (fun e => e == x), l.findIdx? (fun e => e == y) with
  | some i, some j => decide (i < j)
  | _, _ => false

/-- Operations of an abstract storage backend, as used by the generic
FallbackStorage implementation: each operation threads the backend state, and
getLen / readElems / writeElems model the raw-pointer data movement of the
cross-backend growth path. -/
structure Backend (St H : Type) where
  allocSingle : St → Nat → Except StorageError H × St
  deallocSingle : St → H → St
  tryGrow : St → H → Nat → Except StorageError H × St
  tryShrink : St → H → Nat → Except StorageError H × St
  getLen : St → H → Nat
  readElems : St → H → List Nat
  writeElems : St → H → List Nat → St

/-- fallback.rs, FallbackHandle: tagged union recording which backend
produced the handle. -/
inductive FbHandle (H1 H2 : Type) where
  | First (h : H1)
  | Second (h : H2)
deriving DecidableEq

/-- The inner-backend calls FallbackStorage::try_grow can make, recorded in
order as a trace. -/
inductive FbCall where
  | firstTryGrow (cap : Nat)
  | firstGet
  | secondAllocSingle (cap : Nat)
  | copyData
  | firstDeallocSingle
  | secondTryGrow (cap : Nat)
  | secondTryShrink (cap : Nat)
deriving DecidableEq

/-- fallback.rs, Storage::try_grow for FallbackStorage. A First-tagged handle
first tries the primary try_grow and on failure falls back to allocating in
the secondary, copying the old elements across and deallocating in the
primary. A Second-tagged handle is passed to the secondary tryShrink — this
mirrors the source, which calls self.second.try_shrink there. The trace of
inner calls is returned alongside the result and the two backend states. -/
def fallbackTryGrow {St1 H1 St2 H2 : Type}
    (B1 : Backend St1 H1) (B2 : Backend St2 H2) (s1 : St1) (s2 : St2)
    (h : FbHandle H1 H2) (cap : Nat) :
    Except StorageError (FbHandle H1 H2) × St1 × St2 × List FbCall :=
  match h with
  | .First h1 =>
    match B1.tryGrow s1 h1 cap with
    | (.ok h1x, s1x) => (.ok (.First h1x), s1x, s2, [.firstTryGrow cap])
    | (.error _, s1x) =>
      let oldLen := B1.getLen s1x h1
      match B2.allocSingle s2 cap with
      | (.error e, s2x) =>
          (.error e, s1x, s2x, [.firstTryGrow cap, .firstGet, .secondAllocSingle cap])
      | (.ok h2, s2x) =>
          let data := (B1.readElems s1x h1).take oldLen
          let s2y := B2.writeElems s2x h2 data
          let s1y := B1.deallocSingle s1x h1
          (.ok (.Second h2), s1y, s2y,
            [.firstTryGrow cap, .firstGet, .secondAllocSingle cap, .copyData,
             .firstDeallocSingle])
  | .Second h2 =>
    match B2.tryShrink s2 h2 cap with
    | (.ok h2x, s2x) => (.ok (.Second h2x), s1, s2x, [.secondTryShrink cap])
    | (.error e, s2x) => (.error e, s1, s2x, [.secondTryShrink cap])

/-- Model of the SingleInline backend (inline/single.rs) over a buffer of
bufSize bytes and alignment bufAlign, for elements of size sizeT and
alignment alignT: handles are bare metadata (element counts), the state
carries nothing, allocate validates the layout, try_grow checks will_fit, and
try_shrink always succeeds with the new capacity. -/
def singleInline (sizeT alignT bufSize bufAlign : Nat) : Backend Unit Nat where
  allocSingle := fun s meta =>
    (if sizeT * meta ≤ bufSize ∧ alignT ≤ bufAlign then .ok meta
     else if ¬ (sizeT * meta ≤ bufSize) then
       .error (.InsufficientSpace (sizeT * meta) (some bufSize))
     else .error (.InvalidAlign alignT bufAlign), s)
  deallocSingle := fun s _ => s
  tryGrow := fun s _ cap =>
    (if sizeT * cap ≤ bufSize then .ok cap
     else .error (.InsufficientSpace (sizeT * cap) (some (bufSize / sizeT))), s)
  tryShrink := fun s _ cap => (.ok cap, s)
  getLen := fun _ h => h
  readElems := fun _ _ => []
  writeElems := fun s _ _ => s

/-- usize::MAX on a 64-bit target. -/
def USIZE_MAX : Nat := 2 ^ 64 - 1

/-- handles.rs, OffsetMetaHandle: a NonZeroUsize storing offset + 1 (reserving
usize::MAX as a niche) plus the type metadata. -/
structure OffsetMetaHandle (M : Type) where
  stored : Nat
  meta : M
deriving DecidableEq

/-- handles.rs, OffsetMetaHandle::from_offset_meta: asserts that the offset is
not usize::MAX (none models the panic) and stores offset + 1. -/
def from_offset_meta {M : Type} (o : Nat) (m : M) : Option (OffsetMetaHandle M) :=
  if o = USIZE_MAX then none else some { stored := o + 1, meta := m }

/-- handles.rs, OffsetMetaHandle::offset: the stored value minus one. -/
def OffsetMetaHandle.offset {M : Type} (h : OffsetMetaHandle M) : Nat := h.stored - 1

/-- handles.rs, OffsetMetaHandle::metadata. -/
def OffsetMetaHandle.metadata {M : Type} (h : OffsetMetaHandle M) : M := h.meta

/-- handles.rs, OffsetMetaHandle::cast_unsized: rebuild from the same offset
and the same metadata. -/
def OffsetMetaHandle.cast_unsized {M : Type} (h : OffsetMetaHandle M) :
    Option (OffsetMetaHandle M) :=
  from_offset_meta h.offset h.meta

/-- handles.rs, OffsetMetaHandle::cast: rebuild from the same offset with unit
metadata. -/
def OffsetMetaHandle.cast {M : Type} (h : OffsetMetaHandle M) :
    Option (OffsetMetaHandle Unit) :=
  from_offset_meta h.offset ()

/-- handles.rs, Handle::from_raw_parts for OffsetMetaHandle: rebuild from the
offset of the metadata-less handle and the provided metadata. -/
def from_raw_parts {M : Type} (h0 : OffsetMetaHandle Unit) (m : M) :
    Option (OffsetMetaHandle M) :=
  from_offset_meta h0.offset m

/-
Concrete scenarios. The heap scenarios use a VirtHeap with unit type u64
(sizeS = 8, alignS = 8) and N = 4 units, storing slices of u32 elements
(sizeT = 4, alignT = 4); the byte-level scenarios fix the backing bytes to
concrete values standing for data previously written by the caller.
-/

/-- Fresh 4-unit heap with 8-byte units, all bytes zero. -/
def c1St0 : VHState := { used := [false, false, false, false], storage := List.replicate 32 0 }

/-- The heap after allocating a slice of four u32 elements (16 bytes, two
units at 0..2). -/
def c1St1 : VHState := { used := [true, true, false, false], storage := List.replicate 32 0 }

/-- Claim C1: for the block-managed allocator, after every sequence of
allocate / deallocate / try_grow / try_shrink operations the used-unit count
equals the sum of the unit counts of the live handles, and once every handle
is released the bitmap is all free. REFUTED by evaluation: on a heap with
8-byte units, allocate a slice of four 4-byte elements (units 0..2), shrink
it to two elements, then deallocate it; the shrink unmarks elements-range
2..4 instead of the trailing unit, so afterwards two units are marked while
the only live handle spans one unit, and after the final deallocate unit 1
stays marked even though no live handle remains. -/
theorem c1_bitmap_conservation_fails :
    vhAllocate 8 8 4 4 c1St0 4 = .ok ((0, 4), c1St1)
    ∧ vhTryShrink c1St1 (0, 4) 2 = some (.ok (0, 2), c1St1)
    ∧ usedCount c1St1.used = 2
    ∧ ceilUnits 8 (4 * 2) = 1 ∧ blocks 8 (4 * 2) = 1
    ∧ vhDeallocate 8 4 c1St1 (0, 2)
        = some { used := [false, true, false, false], storage := List.replicate 32 0 }
    ∧ [false, true, false, false] ≠ List.replicate 4 false := by decide

/-- Claim C6: try_shrink succeeds for new_count ≤ old_count, keeps the start
and sets metadata to new_count (which it does), and unmarks exactly the
trailing units no longer needed. REFUTED by evaluation: on the heap of
c1St1 (four u32 elements in units 0..2 of 8-byte units), shrinking to two
elements should unmark exactly unit 1 giving bitmap
[true, false, false, false], but the source unmarks the elements-range
(offset + capacity)..(offset + metadata) = 2..4, leaving the bitmap
unchanged at [true, true, false, false]. -/
theorem c6_shrink_unmarks_wrong_units :
    vhTryShrink c1St1 (0, 4) 2 = some (.ok (0, 2), c1St1)
    ∧ c1St1.used = [true, true, false, false]
    ∧ setRange c1St1.used (0 + ceilUnits 8 (4 * 2)) (0 + ceilUnits 8 (4 * 4)) false
        = [true, false, false, false]
    ∧ c1St1.used ≠ [true, false, false, false] := by decide

/-- Claim C3: an allocation of n bytes reserves ceil(n / sizeS) units; in
particular 1 byte reserves 1 unit and sizeS + 1 bytes reserve 2 units.
REFUTED by evaluation: blocks is floor division, so with 8-byte units a
9-byte request maps to 1 unit (claim: 2) and a 1-byte request maps to 0 units
(claim: 1): find_open hands back a 1-unit range and an empty range
respectively. -/
theorem c3_blocks_rounds_down :
    blocks 8 9 = 1 ∧ ceilUnits 8 9 = 2
    ∧ blocks 8 1 = 0 ∧ ceilUnits 8 1 = 1
    ∧ find_open 8 [false, false, false, false] 9 = .ok (0, 1)
    ∧ find_open 8 [false, false, false, false] 1 = .ok (0, 0) := by decide

/-- Heap with handles (0, 3) and (1, 2) live (u32 slices on 8-byte units:
twelve bytes under-reserved into unit 0, eight bytes in unit 1), with
concrete backing bytes 0..31. -/
def c4St : VHState := { used := [true, true, false, false], storage := List.range 32 }

/-- The heap c4St after vhTryGrow moves handle (0, 3) to units 2..4: only one
unit (eight bytes) was copied, so bytes 24..28 keep their old contents. -/
def c4StAfter : VHState :=
  { used := [false, true, true, true],
    storage :=
      [0, 1, 2, 3, 4, 5, 6, 7, 8, 9, 10, 11, 12, 13, 14, 15,
       0, 1, 2, 3, 4, 5, 6, 7, 24, 25, 26, 27, 28, 29, 30, 31] }

/-- Claim C4: move growth preserves the first old_count elements byte for
byte. REFUTED by evaluation: with 8-byte units and u32 elements, a live
handle to three elements (12 bytes, floor-reserved as a single unit) grown to
four elements moves from unit 0 to units 2..4 but copies only the one
reserved unit (8 bytes), so the third element read through the new handle
(bytes 24..28 of the heap) differs from the pre-grow contents (bytes
8..12). -/
theorem c4_move_growth_loses_bytes :
    vhAllocate 8 8 4 4 { used := [false, false, false, false], storage := List.range 32 } 3
      = .ok ((0, 3), { used := [true, false, false, false], storage := List.range 32 })
    ∧ vhAllocate 8 8 4 4 { used := [true, false, false, false], storage := List.range 32 } 2
      = .ok ((1, 2), c4St)
    ∧ vhTryGrow 8 4 c4St (0, 3) 4 = some (.ok (2, 4), c4StAfter)
    ∧ readBytes c4St (0 * 8) (4 * 3) = [0, 1, 2, 3, 4, 5, 6, 7, 8, 9, 10, 11]
    ∧ readBytes c4StAfter (2 * 8) (4 * 3) = [0, 1, 2, 3, 4, 5, 6, 7, 24, 25, 26, 27]
    ∧ readBytes c4StAfter (2 * 8) (4 * 3) ≠ readBytes c4St (0 * 8) (4 * 3) := by decide

/-- Fully occupied 4-unit heap with 1-byte units: handles (0, 2) and (2, 2)
live. -/
def c5St : VHState := { used := [true, true, true, true], storage := List.replicate 4 0 }

/-- Claim C5: when try_grow can neither grow in place nor find a free run of
the new size, it returns InsufficientSpace and restores the bitmap. REFUTED
by evaluation: growing handle (2, 2) to four units on the full 4-unit heap
c5St makes grow_in_place index the bitmap with the out-of-bounds range 4..6,
which panics (modelled as none) before any error can be returned — even
though the search for a free run of the new size would indeed fail
(find_open on the bitmap with the handle freed errors with NoSlots). -/
theorem c5_failed_grow_panics_out_of_bounds :
    vhAllocate 1 1 1 1 { used := [false, false, false, false], storage := List.replicate 4 0 } 2
      = .ok ((0, 2), { used := [true, true, false, false], storage := List.replicate 4 0 })
    ∧ vhAllocate 1 1 1 1 { used := [true, true, false, false], storage := List.replicate 4 0 } 2
      = .ok ((2, 2), c5St)
    ∧ find_open 1 (setRange c5St.used 2 4 false) (1 * 4) = .error .NoSlots
    ∧ vhTryGrow 1 1 c5St (2, 2) 4 = none := by decide

/-- The secondary backend of the fallback scenario: a SingleInline storage
over a [u16; 4] buffer (8 bytes, alignment 2) holding u16 elements. -/
def fbSecondary : Backend Unit Nat := singleInline 2 2 8 2

/-- FallbackStorage::try_grow applied to a Second-tagged handle of two u16
elements, growing to capacity 8 (16 bytes, beyond the secondary buffer). -/
def c2Run : Except StorageError (FbHandle Nat Nat) × Unit × Unit × List FbCall :=
  fallbackTryGrow fbSecondary fbSecondary () () (.Second 2) 8

/-- Claim C2: on a Second-tagged handle, try_grow invokes the secondary
backend try_grow with the new capacity and returns its result tagged
secondary. REFUTED by evaluation: the source dispatches the Second arm of
try_grow to the secondary try_shrink, so growing a 2-element handle to
capacity 8 on an 8-byte secondary returns ok with a handle claiming 8
elements, while the secondary try_grow would return InsufficientSpace. -/
theorem c2_second_arm_calls_shrink :
    c2Run.1 = .ok (.Second 8)
    ∧ c2Run.2.2.2 = [.secondTryShrink 8]
    ∧ (fbSecondary.tryGrow () 2 8).1 = .error (.InsufficientSpace 16 (some 4))
    ∧ c2Run.1 ≠ Except.map FbHandle.Second ((fbSecondary.tryGrow () 2 8).1)
    ∧ FbCall.secondTryShrink 8 ≠ FbCall.secondTryGrow 8 := by decide

/-
First-fit search theory for find_open (claim C7).
-/

/-- Running count of consecutive free units after scanning t with carry n:
the value the scan of find_open has accumulated. -/
def cnt (n : Nat) (t : List Bool) : Nat := t.foldl scanStep n

/-- The units s..s + b of the bitmap l all exist and are free. -/
def freeRun (l : List Bool) (s b : Nat) : Prop :=
  s + b ≤ l.length ∧ ((l.drop s).take b).all (fun v => !v) = true

instance (l : List Bool) (s b : Nat) : Decidable (freeRun l s b) :=
  inferInstanceAs (Decidable (_ ∧ _))

theorem cnt_cons (n : Nat) (v : Bool) (t : List Bool) :
    cnt n (v :: t) = cnt (scanStep n v) t := rfl

theorem cnt_le (t : List Bool) : ∀ n : Nat, cnt n t ≤ n + t.length := by
  induction t with
  | nil => intro n; simp [cnt]
  | cons v rest ih =>
    intro n
    rw [cnt_cons]
    have h1 := ih (scanStep n v)
    have h2 : scanStep n v ≤ n + 1 := by unfold scanStep; split <;> omega
    simp only [List.length_cons]
    omega

/-- findEnd returns some e exactly when e is the first bitmap position whose
running count of consecutive free units (with carry n) reaches b. -/
theorem findEnd_some_iff (b : Nat) (l : List Bool) : ∀ (n e : Nat),
    findEnd b l n = some e ↔
      (e < l.length ∧ b ≤ cnt n (l.take (e + 1))
        ∧ ∀ j, j < e → cnt n (l.take (j + 1)) < b) := by
  induction l with
  | nil =>
    intro n e
    simp [findEnd]
  | cons v rest ih =>
    intro n e
    by_cases hb : b ≤ scanStep n v
    · have hL : findEnd b (v :: rest) n = some 0 := by
        simp [findEnd, hb]
      rw [hL]
      constructor
      · intro h
        have he := (Option.some_inj.mp h).symm
        subst he
        refine ⟨by simp, ?_, ?_⟩
        · rw [List.take_succ_cons]
          simpa [cnt, List.take_zero, List.foldl_cons, List.foldl_nil] using hb
        · intro j hj
          omega
      · rintro ⟨he, hcnt, hmin⟩
        rcases e with _ | e2
        · rfl
        · exfalso
          have h0 := hmin 0 (by omega)
          rw [List.take_succ_cons] at h0
          simp only [List.take_zero, cnt, List.foldl_cons, List.foldl_nil] at h0
          omega
    · have hL : findEnd b (v :: rest) n
          = (findEnd b rest (scanStep n v)).map (fun e => e + 1) := by
        simp [findEnd, hb]
      rw [hL]
      rcases e with _ | e2
      · rw [Option.map_eq_some']
        constructor
        · rintro ⟨a, _, ha⟩
          omega
        · rintro ⟨_, hcnt, _⟩
          exfalso
          rw [List.take_succ_cons] at hcnt
          simp only [List.take_zero, cnt, List.foldl_cons, List.foldl_nil] at hcnt
          omega
      · rw [Option.map_eq_some']
        constructor
        · rintro ⟨a, hsome, ha⟩
          obtain ⟨h1, h2, h3⟩ := (ih (scanStep n v) a).mp hsome
          have hae : a = e2 := by omega
          subst hae
          refine ⟨by simp only [List.length_cons]; omega, ?_, ?_⟩
          · rw [List.take_succ_cons, cnt_cons]
            exact h2
          · intro j hj
            rcases j with _ | j2
            · rw [List.take_succ_cons]
              simp only [List.take_zero, cnt, List.foldl_cons, List.foldl_nil]
              omega
            · have := h3 j2 (by omega)
              rw [List.take_succ_cons, cnt_cons]
              exact this
        · rintro ⟨h1, h2, h3⟩
          refine ⟨e2, (ih (scanStep n v) e2).mpr ⟨?_, ?_, ?_⟩, rfl⟩
          · simp only [List.length_cons] at h1
            omega
          · rw [List.take_succ_cons, cnt_cons] at h2
            exact h2
          · intro j hj
            have := h3 (j + 1) (by omega)
            rw [List.take_succ_cons, cnt_cons] at this
            exact this

/-- findEnd returns none exactly when no bitmap position reaches a running
count of b consecutive free units. -/
theorem findEnd_none_iff (b : Nat) (l : List Bool) : ∀ n : Nat,
    findEnd b l n = none ↔ ∀ j, j < l.length → cnt n (l.take (j + 1)) < b := by
  induction l with
  | nil =>
    intro n
    simp [findEnd]
  | cons v rest ih =>
    intro n
    by_cases hb : b ≤ scanStep n v
    · have hL : findEnd b (v :: rest) n = some 0 := by
        simp [findEnd, hb]
      rw [hL]
      constructor
      · intro h
        exact Option.noConfusion h
      · intro h
        exfalso
        have h0 := h 0 (by simp)
        rw [List.take_succ_cons] at h0
        simp only [List.take_zero, cnt, List.foldl_cons, List.foldl_nil] at h0
        omega
    · have hL : findEnd b (v :: rest) n
          = (findEnd b rest (scanStep n v)).map (fun e => e + 1) := by
        simp [findEnd, hb]
      rw [hL, Option.map_eq_none', ih (scanStep n v)]
      constructor
      · intro h j hj
        rcases j with _ | j2
        · rw [List.take_succ_cons]
          simp only [List.take_zero, cnt, List.foldl_cons, List.foldl_nil]
          omega
        · have := h j2 (by simp only [List.length_cons] at hj; omega)
          rw [List.take_succ_cons, cnt_cons]
          exact this
      · intro h j hj
        have := h (j + 1) (by simp only [List.length_cons]; omega)
        rw [List.take_succ_cons, cnt_cons] at this
        exact this

/-- The running count from carry 0 reaches b exactly when the last b entries
of the scanned prefix are all free. -/
theorem cnt_zero_ge_iff (t : List Bool) : ∀ b : Nat, 1 ≤ b →
    (b ≤ cnt 0 t ↔
      (b ≤ t.length ∧ ((t.drop (t.length - b)).all (fun v => !v)) = true)) := by
  induction t using List.reverseRecOn with
  | nil =>
    intro b hb
    simp [cnt]
  | append_singleton t v ih =>
    intro b hb
    have hc : cnt 0 (t ++ [v]) = scanStep (cnt 0 t) v := by
      simp [cnt, List.foldl_append]
    have hlen : (t ++ [v]).length = t.length + 1 := by simp
    rw [hc, hlen]
    cases v with
    | true =>
      have hs0 : scanStep (cnt 0 t) true = 0 := rfl
      rw [hs0]
      constructor
      · intro h
        omega
      · rintro ⟨hble, hall⟩
        exfalso
        have hd : (t ++ [true]).drop (t.length + 1 - b)
            = t.drop (t.length + 1 - b) ++ [true] :=
          List.drop_append_of_le_length (by omega)
        rw [hd, List.all_append] at hall
        simp at hall
    | false =>
      have hs1 : scanStep (cnt 0 t) false = cnt 0 t + 1 := rfl
      rw [hs1]
      rcases b with _ | b2
      · exact absurd hb (by omega)
      rcases b2 with _ | b3
      · constructor
        · intro _
          refine ⟨by omega, ?_⟩
          have hd : (t ++ [false]).drop (t.length + 1 - 1) = [false] := by
            have h1 : t.length + 1 - 1 = t.length := by omega
            rw [h1, List.drop_append_of_le_length (le_refl t.length), List.drop_length]
            rfl
          rw [hd]
          rfl
        · intro _
          omega
      · have ihb := ih (b3 + 1) (by omega)
        have hd : (t ++ [false]).drop (t.length + 1 - (b3 + 2))
            = t.drop (t.length - (b3 + 1)) ++ [false] := by
          have h1 : t.length + 1 - (b3 + 2) = t.length - (b3 + 1) := by omega
          rw [h1]
          exact List.drop_append_of_le_length (by omega)
        rw [hd, List.all_append]
        constructor
        · intro h
          obtain ⟨hA, hB⟩ := ihb.mp (by omega)
          refine ⟨by omega, ?_⟩
          rw [hB]
          rfl
        · rintro ⟨hA, hB⟩
          rw [Bool.and_eq_true] at hB
          have := ihb.mpr ⟨by omega, hB.1⟩
          omega

/-- Transfer between the running count reaching b on the prefix of length m
and a free run ending at position m. -/
theorem cnt_take_iff (l : List Bool) (b : Nat) (hb : 1 ≤ b) (m : Nat)
    (hm : m ≤ l.length) (hbm : b ≤ m) :
    b ≤ cnt 0 (l.take m) ↔ freeRun l (m - b) b := by
  have hlen : (l.take m).length = m := by
    rw [List.length_take]
    omega
  rw [cnt_zero_ge_iff (l.take m) b hb, hlen]
  have hdt : (l.take m).drop (m - b) = (l.drop (m - b)).take b := by
    rw [List.drop_take]
    have : m - (m - b) = b := by omega
    rw [this]
  rw [hdt]
  unfold freeRun
  constructor
  · rintro ⟨_, hall⟩
    exact ⟨by omega, hall⟩
  · rintro ⟨_, hall⟩
    exact ⟨hbm, hall⟩

/-- Claim C7: allocation in the block-managed allocator is first-fit.
Whenever the required unit count b (blocks of the requested byte size) is
between 1 and N and some run of b consecutive free units exists, find_open
returns the run starting at the smallest start index s such that units
s..s+b are all free; when no such run exists it fails with NoSlots. -/
theorem c7_find_open_first_fit (sizeS : Nat) (l : List Bool) (size b : Nat)
    (hblocks : blocks sizeS size = b) (hb1 : 1 ≤ b) (hbN : b ≤ l.length) :
    (∀ s, freeRun l s b →
      ∃ s0, find_open sizeS l size = .ok (s0, s0 + b) ∧ freeRun l s0 b
        ∧ ∀ t, freeRun l t b → s0 ≤ t)
    ∧ ((∀ s, ¬ freeRun l s b) → find_open sizeS l size = .error .NoSlots) := by
  have hform : find_open sizeS l size
      = match findEnd b l 0 with
        | some e => .ok (e - (b - 1), e + 1)
        | none => .error .NoSlots := by
    simp only [find_open]
    rw [hblocks, if_neg (by omega), if_neg (by omega)]
  cases hE : findEnd b l 0 with
  | some e =>
    obtain ⟨helen, hcnt, hmin⟩ := (findEnd_some_iff b l 0 e).mp hE
    have hbe : b ≤ e + 1 := by
      have h1 := cnt_le (l.take (e + 1)) 0
      have h2 : (l.take (e + 1)).length = e + 1 := by
        rw [List.length_take]
        omega
      omega
    have hrun : freeRun l (e + 1 - b) b :=
      (cnt_take_iff l b hb1 (e + 1) (by omega) hbe).mp hcnt
    have hres : find_open sizeS l size = .ok (e + 1 - b, e + 1 - b + b) := by
      rw [hform, hE]
      show Except.ok (e - (b - 1), e + 1) = Except.ok (e + 1 - b, e + 1 - b + b)
      have hpair : (e - (b - 1), e + 1) = (e + 1 - b, e + 1 - b + b) := by
        simp only [Prod.mk.injEq]
        omega
      rw [hpair]
    have hminimal : ∀ t, freeRun l t b → e + 1 - b ≤ t := by
      intro t ht
      by_contra hlt
      push_neg at hlt
      have htb : t + b ≤ l.length := ht.1
      have hcntt : b ≤ cnt 0 (l.take (t + b)) := by
        refine (cnt_take_iff l b hb1 (t + b) htb (by omega)).mpr ?_
        have h3 : t + b - b = t := by omega
        rw [h3]
        exact ht
      have hlow := hmin (t + b - 1) (by omega)
      have h4 : t + b - 1 + 1 = t + b := by omega
      rw [h4] at hlow
      omega
    constructor
    · intro s hs
      exact ⟨e + 1 - b, hres, hrun, hminimal⟩
    · intro hnone
      exact absurd hrun (hnone (e + 1 - b))
  | none =>
    have hall := (findEnd_none_iff b l 0).mp hE
    constructor
    · intro s hs
      exfalso
      have htb : s + b ≤ l.length := hs.1
      have hcnts : b ≤ cnt 0 (l.take (s + b)) := by
        refine (cnt_take_iff l b hb1 (s + b) htb (by omega)).mpr ?_
        have h3 : s + b - b = s := by omega
        rw [h3]
        exact hs
      have hlow := hall (s + b - 1) (by omega)
      have h4 : s + b - 1 + 1 = s + b := by omega
      rw [h4] at hlow
      omega
    · intro _
      rw [hform, hE]

/-- Witness for claim C7: on bitmap [T, F, F, T, F, F, F] with 1-byte units
and a 3-byte (3-unit) request there is a free run at 4, and find_open picks
exactly start 4 — the smallest satisfying start. -/
theorem c7_witness :
    (blocks 1 3 = 3 ∧ 1 ≤ 3
      ∧ 3 ≤ [true, false, false, true, false, false, false].length
      ∧ freeRun [true, false, false, true, false, false, false] 4 3)
    ∧ (∃ s0,
        find_open 1 [true, false, false, true, false, false, false] 3 = .ok (s0, s0 + 3)
        ∧ freeRun [true, false, false, true, false, false, false] s0 3
        ∧ ∀ t, freeRun [true, false, false, true, false, false, false] t 3 → s0 ≤ t) :=
  ⟨⟨by decide, by decide, by decide, by decide⟩,
    (c7_find_open_first_fit 1 [true, false, false, true, false, false, false] 3 3
      (by decide) (by decide) (by decide)).1 4 (by decide)⟩

/-- Debug ledger with the single allocation of id 0 recorded live. -/
def c8State : DebugState Unit :=
  { single_allocated := some { id := 0, handle := () },
    id := 1,
    allocated_handles := [{ id := 0, handle := () }],
    deallocated_handles := [] }

/-- Debug::allocate_single run on c8State with a succeeding inner backend. -/
def c8Run : List AllocEv × Except (StorageError ⊕ String) (DebugHandle Unit × DebugState Unit) :=
  debugAllocSingle (.ok ()) c8State

/-- Claim C8 counterexample: with a single allocation already recorded live,
the second allocate_single delegates to the inner backend first and raises
the overwrite diagnostic only afterwards — the diagnostic does not precede
the delegation as the claim states. -/
theorem c8_counterexample :
    c8Run.1 = [.innerAlloc, .diag]
    ∧ beforeIn c8Run.1 .diag .innerAlloc = false
    ∧ beforeIn c8Run.1 .innerAlloc .diag = true
    ∧ isErr c8Run.2 = true := by decide

/-- Claim C8 as amended: on a debug-wrapped backend in single-slot mode with
a previous single allocation still recorded live, allocate_single always
raises the overwrite diagnostic provided the inner allocation succeeds, but
only after delegating to the inner backend. -/
theorem c8_overwrite_diag_after_delegation {H : Type} (st : DebugState H) (h : H)
    (hs : st.single_allocated.isSome = true) :
    (debugAllocSingle (.ok h) st).1 = [.innerAlloc, .diag]
    ∧ (debugAllocSingle (.ok h) st).2 =
        .error (.inr "Called allocate_single without calling deallocate_single - this may overwrite the old value") := by
  simp [debugAllocSingle, validate_alloc, hs]

/-- Witness for the amended claim C8, at the concrete ledger c8State. -/
theorem c8_witness :
    c8State.single_allocated.isSome = true
    ∧ ((debugAllocSingle (.ok ()) c8State).1 = [.innerAlloc, .diag]
      ∧ (debugAllocSingle (.ok ()) c8State).2 =
          .error (.inr "Called allocate_single without calling deallocate_single - this may overwrite the old value")) :=
  ⟨by decide, c8_overwrite_diag_after_delegation c8State () (by decide)⟩

/-- Empty debug ledger. -/
def c9St0 : DebugState Unit :=
  { single_allocated := none, id := 0, allocated_handles := [], deallocated_handles := [] }

/-- A handle id the ledger has never seen. -/
def c9H : DebugHandle Unit := { id := 7, handle := () }

/-- Claim C9 counterexample: releasing a never-allocated handle through the
multi-item deallocate path raises no diagnostic, although its id is not in
the allocated set — the claimed iff fails. -/
theorem c9_counterexample :
    ¬ (isErr (validate_dealloc false c9St0 c9H) = true
        ↔ dhContains c9St0.allocated_handles c9H = false) := by decide

/-- Claim C9 as amended: release raises a diagnostic iff the id is in the
deallocated set, or, in single mode, no single allocation is recorded (the
allocated set is never consulted, so a multi-mode free-without-allocate goes
undetected); on a non-raising release the id is removed from the allocated
set if present, appended to the deallocated set, and the single-slot marker
cleared in single mode. -/
theorem c9_release_diag_conditions {H : Type} (single : Bool) (st : DebugState H)
    (dh : DebugHandle H) :
    (isErr (validate_dealloc single st dh) = true ↔
      (dhContains st.deallocated_handles dh = true
        ∨ (single = true ∧ st.single_allocated = none)))
    ∧ (∀ st2, validate_dealloc single st dh = .ok st2 →
        st2.allocated_handles = removeFirst st.allocated_handles dh
        ∧ st2.deallocated_handles = st.deallocated_handles ++ [dh]
        ∧ st2.single_allocated = (if single then none else st.single_allocated)) := by
  unfold validate_dealloc
  by_cases h1 : dhContains st.deallocated_handles dh
  · simp [h1, isErr]
  · cases single with
    | false =>
      simp [h1, isErr]
    | true =>
      cases ho : st.single_allocated with
      | none => simp [h1, ho, isErr]
      | some x => simp [h1, ho, isErr]

/-- Witness for the amended claim C9, at the concrete empty ledger: the
release does not raise, removes nothing from the allocated set and appends
the id to the deallocated set. -/
theorem c9_witness :
    { single_allocated := none, id := 0, allocated_handles := ([] : List (DebugHandle Unit)),
        deallocated_handles := [c9H] : DebugState Unit }.allocated_handles
        = removeFirst c9St0.allocated_handles c9H
    ∧ { single_allocated := none, id := 0, allocated_handles := ([] : List (DebugHandle Unit)),
        deallocated_handles := [c9H] : DebugState Unit }.deallocated_handles
        = c9St0.deallocated_handles ++ [c9H]
    ∧ { single_allocated := none, id := 0, allocated_handles := ([] : List (DebugHandle Unit)),
        deallocated_handles := [c9H] : DebugState Unit }.single_allocated
        = (if false then none else c9St0.single_allocated) :=
  (c9_release_diag_conditions false c9St0 c9H).2
    { single_allocated := none, id := 0, allocated_handles := [],
      deallocated_handles := [c9H] } (by decide)

/-- Claim C10: from_offset_meta is a perfect round-trip for every offset
other than usize::MAX (and panics exactly at usize::MAX, the reserved niche
value), and cast_unsized, cast and from_raw_parts preserve the offset. -/
theorem c10_offset_meta_roundtrip {M : Type} (o : Nat) (m m2 : M)
    (ho : o ≤ USIZE_MAX) :
    (from_offset_meta o m = none ↔ o = USIZE_MAX)
    ∧ (∀ h : OffsetMetaHandle M, from_offset_meta o m = some h →
        h.offset = o ∧ h.metadata = m
        ∧ h.cast_unsized = some h
        ∧ (∀ h0 : OffsetMetaHandle Unit, h.cast = some h0 →
            ∀ h2 : OffsetMetaHandle M, from_raw_parts h0 m2 = some h2 →
              h2.offset = o ∧ h2.metadata = m2)) := by
  constructor
  · unfold from_offset_meta
    split
    · simp_all
    · simp_all
  · intro h hh
    by_cases hmax : o = USIZE_MAX
    · exfalso
      unfold from_offset_meta at hh
      rw [if_pos hmax] at hh
      exact Option.noConfusion hh
    · unfold from_offset_meta at hh
      rw [if_neg hmax] at hh
      have hh2 := Option.some_inj.mp hh
      subst hh2
      have hoff : OffsetMetaHandle.offset { stored := o + 1, meta := m } = o := by
        show o + 1 - 1 = o
        omega
      refine ⟨hoff, rfl, ?_, ?_⟩
      · unfold OffsetMetaHandle.cast_unsized
        rw [hoff]
        unfold from_offset_meta
        rw [if_neg hmax]
      · intro h0 hcast h2 hraw
        unfold OffsetMetaHandle.cast at hcast
        rw [hoff] at hcast
        unfold from_offset_meta at hcast
        rw [if_neg hmax] at hcast
        have hc2 := Option.some_inj.mp hcast
        subst hc2
        unfold from_raw_parts at hraw
        have hoff0 : OffsetMetaHandle.offset { stored := o + 1, meta := () } = o := by
          show o + 1 - 1 = o
          omega
        rw [hoff0] at hraw
        unfold from_offset_meta at hraw
        rw [if_neg hmax] at hraw
        have hr2 := Option.some_inj.mp hraw
        subst hr2
        constructor
        · show o + 1 - 1 = o
          omega
        · rfl

/-- Witness for claim C10 at offset 5 with metadata 3 and re-typed
metadata 4. -/
theorem c10_witness :
    5 ≤ USIZE_MAX
    ∧ ((from_offset_meta 5 (3 : Nat) = none ↔ 5 = USIZE_MAX)
      ∧ (∀ h : OffsetMetaHandle Nat, from_offset_meta 5 (3 : Nat) = some h →
          h.offset = 5 ∧ h.metadata = 3
          ∧ h.cast_unsized = some h
          ∧ (∀ h0 : OffsetMetaHandle Unit, h.cast = some h0 →
              ∀ h2 : OffsetMetaHandle Nat, from_raw_parts h0 (4 : Nat) = some h2 →
                h2.offset = 5 ∧ h2.metadata = 4))) :=
  ⟨by decide, c10_offset_meta_roundtrip 5 3 4 (by decide)⟩

end Department
